import Mathlib

/-!
Verification of the retrieval-and-cache pipeline with asynchronous task
orchestration (local model serving with Celery job queues and FastAPI).

Shallow embedding of the Python sources:
  * `rag/processor.py`   — `DocumentProcessor.chunk_text` (the Chunker)
  * `rag/engine.py`      — `RAGEngine.query`, `RAGEngine.process_documents`
  * `tasks/query_tasks.py`    — `process_query_async`, `batch_query_async`
  * `tasks/document_tasks.py` — `process_documents_async`
  * `api/routers/query.py`, `api/routers/documents.py` — task-status lookup

Strings are modelled as `List Char` where character-level operations matter
(Python `str` is a sequence of code points; `len`, slicing and `strip` act
on code points, exactly as `List Char` operations do here).  Wall-clock
fields (`processing_time`, `time.sleep`) are elided: they carry no logical
content.
-/

namespace RagCeleryFastapi

/-! ## Chunker: `DocumentProcessor.chunk_text` (rag/processor.py, lines 35-67) -/

/-- The sentence-boundary characters of `re.split(r'[.!?]+', text)`. -/
def isSentenceDelim (c : Char) : Bool :=
  c = '.' || c = '!' || c = '?'

/-- `re.split(r'[.!?]+', text)`: split on maximal runs of `. ! ?`.
A run of consecutive delimiters produces a single field boundary; a
delimiter at either end of the text produces an empty boundary field,
exactly as Python's `re.split` does.  The Boolean flag records whether the
previous character was a delimiter (i.e. whether we are inside a run). -/
def splitSentencesAux : List Char → List Char → Bool → List (List Char)
  | [], acc, _ => [acc.reverse]
  | c :: rest, acc, afterDelim =>
    if isSentenceDelim c then
      if afterDelim then
        splitSentencesAux rest [] true
      else
        acc.reverse :: splitSentencesAux rest [] true
    else
      splitSentencesAux rest (c :: acc) false

/-- `re.split(r'[.!?]+', text)` from `chunk_text` line 40. -/
def splitSentences (text : List Char) : List (List Char) :=
  splitSentencesAux text [] false

/-- Python `str.strip()`: remove leading and trailing whitespace. -/
def strip (s : List Char) : List Char :=
  ((s.dropWhile Char.isWhitespace).reverse.dropWhile Char.isWhitespace).reverse

/-- Python slice `s[-k:]` (used at processor.py line 59).  For `k = 0`
Python evaluates `s[-0:] = s[0:] = s` (negative zero is zero), otherwise it
is the trailing `min k (len s)` characters. -/
def pySliceLast (s : List Char) (k : Nat) : List Char :=
  if k = 0 then s else s.drop (s.length - k)

/-- The `for sentence in sentences` loop of `chunk_text` (lines 42-66),
including the final `if current_chunk: chunks.append(current_chunk.strip())`.
The accumulated `chunks` list is returned as
closed-chunks-so-far `++` recursive-rest. -/
def chunkLoop (chunkSize overlap : Nat) :
    List (List Char) → List Char → List (List Char)
  | [], current =>
    -- lines 63-65: add the last chunk if non-empty
    if current ≠ [] then [strip current] else []
  | s :: rest, current =>
    let sentence := strip s
    if sentence = [] then
      -- lines 45-46: skip empty sentences
      chunkLoop chunkSize overlap rest current
    else if current.length + sentence.length + 1 ≤ chunkSize then
      -- lines 49-50: sentence fits; `current += " " + sentence if current else sentence`
      chunkLoop chunkSize overlap rest
        (if current ≠ [] then current ++ ' ' :: sentence else sentence)
    else
      -- lines 51-61: overflow; close the chunk and seed the next one.
      -- line 58 is Python `if len(current_chunk) > overlap`.
      (if current ≠ [] then [strip current] else []) ++
        chunkLoop chunkSize overlap rest
          (if overlap < current.length then
            pySliceLast current overlap ++ ' ' :: sentence
          else sentence)

/-- `DocumentProcessor.chunk_text(text, chunk_size, overlap)`. -/
def chunk_text (text : List Char) (chunkSize overlap : Nat) : List (List Char) :=
  chunkLoop chunkSize overlap (splitSentences text) []

/-- The stripped, non-empty sentences the chunk loop actually consumes. -/
def sentencesOf (text : List Char) : List (List Char) :=
  ((splitSentences text).map strip).filter (fun s => s ≠ [])

/-! ## Query pipeline: `RAGEngine.query` (rag/engine.py, lines 50-94)

The engine's collaborators are abstracted exactly as the spec's component
boundaries dictate: the cache lookup (`CacheManager.get_cached_result`),
the retriever (`Retriever.search`, of which only the metadata contents and
the result count are consumed), and the generation function
(`generate_response`).  `processing_time` is wall-clock and elided. -/

structure RAGEngineState where
  /-- `self.cache_manager.get_cached_result(question)` -/
  cacheGet : String → Option String
  /-- the `result['metadata']['content']` fields of `self.retriever.search(question)` -/
  searchContents : String → List String
  /-- `generate_response(prompt)` -/
  generate : String → String

/-- Result dictionary of `RAGEngine.query`; the cache branch's dictionary
carries no `context_used` key, modelled as `none`.  `cacheStores` records
the `self.cache_manager.cache_result(question, answer)` calls the method
performed (empty on the cache branch, a single store otherwise). -/
structure QueryOutput where
  answer : String
  source : String
  retrieved_chunks : Nat
  context_used : Option Bool
  cacheStores : List (String × String)
deriving DecidableEq

/-- Lines 73-76: the context-plus-question prompt (Python `if context:`
tests non-emptiness; the two branches are mirrored here on `context = ""`). -/
def prompt (context question : String) : String :=
  if context = "" then
    "Question: " ++ question ++ "\nAnswer:"
  else
    "Context: " ++ context ++ "\n\nQuestion: " ++ question ++ "\nAnswer:"

/-- Python truthiness of the cached lookup (`if cached_result:` line 56):
`None` and the empty string are both treated as a miss. -/
def cacheHit : Option String → Bool
  | none => false
  | some s => s ≠ ""

/-- The miss path of `RAGEngine.query` (lines 65-94): retrieve, build the
prompt, generate, store in the cache, return with source `generated`. -/
def RAGEngineState.queryMiss (e : RAGEngineState) (question : String) : QueryOutput :=
  let results := e.searchContents question
  let context := String.intercalate "\n" results
  let answer := e.generate (prompt context question)
  { answer := answer
    source := "generated"
    retrieved_chunks := results.length
    context_used := some (context ≠ "")
    cacheStores := [(question, answer)] }

/-- `RAGEngine.query(question)` (lines 50-94): look the question up in the
cache and, when the lookup is truthy (`if cached_result:`), return it as
the answer with source `cache`; otherwise run the miss path. -/
def RAGEngineState.query (e : RAGEngineState) (question : String) : QueryOutput :=
  let cached_result := e.cacheGet question
  if cacheHit cached_result then
    { answer := cached_result.getD ""
      source := "cache"
      retrieved_chunks := 0
      context_used := none
      cacheStores := [] }
  else e.queryMiss question

/-! ## Document indexing: `RAGEngine.process_documents` (rag/engine.py, lines 21-48) -/

structure Document where
  content : List Char
  filename : String
deriving DecidableEq

/-- Modelled from the spec: `rag/retriever.py` is not under `src/` (only its
callers are).  Following spec section 4.2, an index entry is an (embedding
vector, metadata) pair whose metadata holds the chunk text and source; the
vector itself is an injected function of the chunk text and is elided. -/
structure IndexEntry where
  content : List Char
  filename : String
deriving DecidableEq

/-- Modelled from the spec: `Retriever.add_documents` (spec section 4.2)
chunks each document and appends one entry per chunk. -/
def add_documents (idx : List IndexEntry) (chunkSize overlap : Nat)
    (docs : List Document) : List IndexEntry :=
  idx ++ (docs.map (fun d =>
    (chunk_text d.content chunkSize overlap).map
      (fun c => ({ content := c, filename := d.filename } : IndexEntry)))).flatten

/-- Modelled from the spec: `Retriever.clear_index` (spec section 4.2)
discards all entries. -/
def clear_index : List IndexEntry := []

/-- The nested result dictionary of `RAGEngine.process_documents`. -/
structure ProcessDocsResult where
  status : String
  documents_processed : Nat
  message : String
deriving DecidableEq

/-- `RAGEngine.process_documents()` (engine.py lines 21-48): the loaded
documents are a parameter (the loader reads the filesystem and is external
per spec section 1); the function returns its result dictionary together
with the index left behind. -/
def process_documents (chunkSize overlap : Nat) (docs : List Document)
    (index : List IndexEntry) : ProcessDocsResult × List IndexEntry :=
  if docs.isEmpty then
    ({ status := "completed"
       documents_processed := 0
       message := "No documents found in data/documents/ directory" }, index)
  else
    ({ status := "completed"
       documents_processed := docs.length
       message := "Successfully processed " ++ toString docs.length ++ " documents" },
     add_documents clear_index chunkSize overlap docs)

/-! ## Celery tasks (tasks/query_tasks.py, tasks/document_tasks.py)

A task body is a sequence of `self.update_state(state=..., meta=...)` calls
around fallible steps (`RAGEngine()` construction and the engine call),
modelled as `Except String` values.  A task returns its update trace
together with either its final return dictionary or the re-raised error.
`time.sleep` calls are elided. -/

structure TaskMeta where
  status : String
  progress : Nat
  error : Option String := none
  question : Option String := none
  current_question : Option String := none
deriving DecidableEq

structure TaskUpdate where
  state : String
  meta : TaskMeta
deriving DecidableEq

/-- The engine-result fields `process_query_async` reads out of
`rag_engine.query(question)` (lines 49-53 of tasks/query_tasks.py). -/
structure TaskQueryResult where
  answer : String
  source : String
  retrieved_chunks : Nat
  context_used : Bool
deriving DecidableEq

/-- Final return dictionary of `process_query_async` (lines 46-56). -/
structure QueryTaskPayload where
  status : String
  question : String
  answer : String
  source : String
  retrieved_chunks : Nat
  context_used : Bool
  progress : Nat
  message : String
deriving DecidableEq

/-- The `except` handler of `process_query_async` (lines 58-69). -/
def queryFailureUpdate (e question : String) : TaskUpdate :=
  { state := "FAILURE"
    meta := { status := "Error occurred during query processing"
              progress := 0
              error := some e
              question := some question } }

/-- `process_query_async(question)` (tasks/query_tasks.py lines 5-69).
`init` is the fallible `RAGEngine()` construction, `queryFn` the fallible
`rag_engine.query`. -/
def processQueryAsync (init : Except String Unit)
    (queryFn : String → Except String TaskQueryResult) (question : String) :
    List TaskUpdate × Except String QueryTaskPayload :=
  let u1 : TaskUpdate :=
    ⟨"PROGRESS", { status := "Initializing RAG engine...", progress := 10 }⟩
  match init with
  | .error e => ([u1, queryFailureUpdate e question], .error e)
  | .ok _ =>
    let u2 : TaskUpdate :=
      ⟨"PROGRESS", { status := "Searching for relevant documents...", progress := 30 }⟩
    let u3 : TaskUpdate :=
      ⟨"PROGRESS", { status := "Generating response...", progress := 60 }⟩
    match queryFn question with
    | .error e => ([u1, u2, u3, queryFailureUpdate e question], .error e)
    | .ok r =>
      let u4 : TaskUpdate :=
        ⟨"PROGRESS", { status := "Finalizing response...", progress := 90 }⟩
      ([u1, u2, u3, u4],
       .ok { status := "completed"
             question := question
             answer := r.answer
             source := r.source
             retrieved_chunks := r.retrieved_chunks
             context_used := r.context_used
             progress := 100
             message := "Query processed successfully" })

structure BatchItem where
  question : String
  answer : String
  source : String
  retrieved_chunks : Nat
deriving DecidableEq

/-- Final return dictionary of `batch_query_async` (lines 109-115). -/
structure BatchPayload where
  status : String
  total_questions : Nat
  results : List BatchItem
  progress : Nat
  message : String
deriving DecidableEq

/-- The `except` handler of `batch_query_async` (lines 117-126). -/
def batchFailureUpdate (e : String) : TaskUpdate :=
  { state := "FAILURE"
    meta := { status := "Error occurred during batch query processing"
              progress := 0
              error := some e } }

/-- Round-half-to-even of a nonnegative-or-negative rational to an integer
(the rounding of each IEEE-754 binary64 operation, expressed on the scaled
significand). -/
def roundHalfEvenInt (s : ℚ) : ℤ :=
  if Int.fract s < 1 / 2 then ⌊s⌋
  else if 1 / 2 < Int.fract s then ⌊s⌋ + 1
  else if ⌊s⌋ % 2 = 0 then ⌊s⌋ else ⌊s⌋ + 1

/-- The exponent of the binary64 unit in the last place for a value of
magnitude `q`: `2^(e-52)` for a normal value in the binade `[2^e, 2^(e+1))`
and `2^-1074` in the subnormal range. -/
def ulpExp (q : ℚ) : ℤ :=
  max (-1074) (Int.log 2 q - 52)

/-- Binary64 round-to-nearest, ties-to-even, of an exact nonnegative
rational: round to the nearest multiple of the unit in the last place.
Overflow to infinity is not modelled; it is unreachable on this code path,
where every rounded value lies in `[0, 90]`. -/
def roundDouble (q : ℚ) : ℚ :=
  (roundHalfEvenInt (q / 2 ^ ulpExp q) : ℚ) * 2 ^ ulpExp q

/-- `int((i / total) * 90)` (query_tasks.py line 83) under Python float
semantics: the true division `i / total` rounds the exact quotient to the
nearest binary64 double, the multiplication by `90` (exactly representable)
rounds the exact product, and `int` truncates toward zero — the value is
nonnegative, so truncation is the floor.  (For `total = 0` Python would
raise `ZeroDivisionError`, but the loop emitting this value never runs on
an empty batch; the model's junk value at 0 is never used.) -/
def pyBatchProgress (i total : Nat) : Nat :=
  (⌊roundDouble (roundDouble ((i : ℚ) / (total : ℚ)) * 90)⌋).toNat

/-- The per-item progress update of `batch_query_async` (lines 82-91).
Line 83 is Python `int((i / total_questions) * 90)` (the comment in the
source reads "Reserve 10% for finalization"), modelled exactly as binary64
arithmetic by `pyBatchProgress`. -/
def batchProgressUpdate (i total : Nat) (q : String) : TaskUpdate :=
  { state := "PROGRESS"
    meta := { status := "Processing question " ++ toString (i + 1) ++ " of " ++
                toString total ++ "..."
              progress := pyBatchProgress i total
              current_question := some q } }

/-- The `for i, question in enumerate(questions)` loop of
`batch_query_async` (lines 81-101): emits a progress update, runs the
query, accumulates the per-item result; on an uncaught error the loop stops
and the error propagates to the handler. -/
def batchLoop (queryFn : String → Except String TaskQueryResult) (total : Nat) :
    Nat → List String → List BatchItem →
    List TaskUpdate × Except String (List BatchItem)
  | _, [], acc => ([], .ok acc)
  | i, q :: rest, acc =>
    let u := batchProgressUpdate i total q
    match queryFn q with
    | .error e => ([u], .error e)
    | .ok r =>
      let step := batchLoop queryFn total (i + 1) rest
        (acc ++ [{ question := q, answer := r.answer, source := r.source,
                   retrieved_chunks := r.retrieved_chunks }])
      (u :: step.1, step.2)

/-- `batch_query_async(questions)` (tasks/query_tasks.py lines 71-126). -/
def batchQueryAsync (init : Except String Unit)
    (queryFn : String → Except String TaskQueryResult)
    (questions : List String) :
    List TaskUpdate × Except String BatchPayload :=
  match init with
  | .error e => ([batchFailureUpdate e], .error e)
  | .ok _ =>
    match batchLoop queryFn questions.length 0 questions [] with
    | (us, .error e) => (us ++ [batchFailureUpdate e], .error e)
    | (us, .ok items) =>
      (us ++ [⟨"PROGRESS", { status := "Finalizing batch results...", progress := 95 }⟩],
       .ok { status := "completed"
             total_questions := questions.length
             results := items
             progress := 100
             message := "Successfully processed " ++ toString questions.length ++
               " questions" })

/-- Final return dictionary of `process_documents_async` (lines 37-42). -/
structure DocTaskPayload where
  status : String
  result : ProcessDocsResult
  progress : Nat
  message : String
deriving DecidableEq

/-- The `except` handler of `process_documents_async` (lines 44-54). -/
def docsFailureUpdate (e : String) : TaskUpdate :=
  { state := "FAILURE"
    meta := { status := "Error occurred during document processing"
              progress := 0
              error := some e } }

/-- `process_documents_async()` (tasks/document_tasks.py lines 5-54).
`init` is the fallible `RAGEngine()` construction, `processDocs` the
fallible `rag_engine.process_documents()`. -/
def processDocumentsAsync (init : Except String Unit)
    (processDocs : Except String ProcessDocsResult) :
    List TaskUpdate × Except String DocTaskPayload :=
  let u1 : TaskUpdate :=
    ⟨"PROGRESS", { status := "Initializing RAG engine...", progress := 10 }⟩
  match init with
  | .error e => ([u1, docsFailureUpdate e], .error e)
  | .ok _ =>
    let u2 : TaskUpdate :=
      ⟨"PROGRESS", { status := "Processing documents...", progress := 30 }⟩
    match processDocs with
    | .error e => ([u1, u2, docsFailureUpdate e], .error e)
    | .ok r =>
      let u3 : TaskUpdate :=
        ⟨"PROGRESS", { status := "Building search index...", progress := 80 }⟩
      ([u1, u2, u3],
       .ok { status := "completed"
             result := r
             progress := 100
             message := "Document processing completed successfully" })

/-! ## Task-status lookup (api/routers/query.py lines 75-126 and
api/routers/documents.py lines 118-169; the two handlers are identical) -/

/-- The state a `celery_app.AsyncResult(task_id)` reports, with the payload
the router reads from it in each state (`info['progress']`/`info['status']`
for PROGRESS, `result['message']` for SUCCESS, `str(info)` for FAILURE).
The SUCCESS result dictionary is kept opaque as its rendered message. -/
inductive CeleryTaskState where
  | pending
  | progress (meta : TaskMeta)
  | success (message : String)
  | failure (info : String)
  | other (name : String)
deriving DecidableEq

/-- Modelled from the spec: the Celery result backend (`AsyncResult`) is
library code outside `src/`.  Spec sections 4.4 and 7: "An id that was never
submitted is indistinguishable from one that is queued but not yet started —
both report PENDING"; the backend store maps submitted ids to their state
and reports PENDING for ids it does not know. -/
def celeryStateOf (store : String → Option CeleryTaskState) (id : String) :
    CeleryTaskState :=
  (store id).getD .pending

/-- `TaskStatusResponse` (api/models/responses.py).  The optional `result`
dictionary is kept as its opaque rendered message. -/
structure TaskStatusResponse where
  task_id : String
  status : String
  progress : Option Nat := none
  message : Option String := none
  result : Option String := none
  error : Option String := none
deriving DecidableEq

/-- `get_task_status(task_id)` (api/routers/query.py lines 75-126), the
same branch-for-branch shape as `get_document_task_status`
(api/routers/documents.py lines 118-169). -/
def get_task_status (store : String → Option CeleryTaskState)
    (task_id : String) : TaskStatusResponse :=
  match celeryStateOf store task_id with
  | .pending =>
    { task_id := task_id, status := "PENDING"
      message := some "Task is waiting to be processed" }
  | .progress m =>
    { task_id := task_id, status := "PROGRESS"
      progress := some m.progress, message := some m.status }
  | .success msg =>
    { task_id := task_id, status := "SUCCESS"
      progress := some 100, message := some msg, result := some msg }
  | .failure info =>
    { task_id := task_id, status := "FAILURE"
      progress := some 0, message := some "Task failed", error := some info }
  | .other s =>
    { task_id := task_id, status := s
      message := some ("Task is in " ++ s ++ " state") }

/-! ## Result cache (spec sections 3, 4.3 and 8)

Modelled from the spec: `cache/manager.py` is not under `src/` (only its
tests and callers are). -/

/-- Spec section 3: CacheEntry `{key, answer text, creation timestamp,
serialized size in bytes}`. -/
structure CacheEntry where
  key : String
  answer : String
  created_at : Nat
  size : Nat
deriving DecidableEq

/-- The entry list of the cache, maintained oldest-creation-first (stores
append with a non-decreasing wall clock). -/
structure ResultCache where
  entries : List CacheEntry
deriving DecidableEq

def totalSizeBytes (c : ResultCache) : Nat :=
  (c.entries.map (fun e => e.size)).sum

/-- Modelled from the spec: the eviction loop of `put` (spec section 4.3):
"if inserting would push total cache size above `max_size_bytes`, evict
existing entries oldest-creation-time first until the entry fits.
Insertion of an entry itself larger than `max_size_bytes` overwrites no
other entry and simply becomes the sole retained item."  With the list kept
oldest-first, evicting oldest-first drops entries from the front. -/
def evictToFit : List CacheEntry → Nat → Nat → List CacheEntry
  | [], _, _ => []
  | e :: rest, need, budget =>
    if budget < ((e :: rest).map (fun x => x.size)).sum + need then
      evictToFit rest need budget
    else e :: rest

/-- Modelled from the spec: `put(question, answer)` (spec section 4.3):
computes the serialized size (`size`, supplied by the caller's serializer),
evicts until the entry fits, then inserts the new entry. -/
def cachePut (c : ResultCache) (key answer : String) (now size maxSize : Nat) :
    ResultCache :=
  ⟨evictToFit c.entries size maxSize ++
    [{ key := key, answer := answer, created_at := now, size := size }]⟩

/-! ### Basic facts about `strip` -/

theorem dropWhile_idem (p : Char → Bool) (l : List Char) :
    (l.dropWhile p).dropWhile p = l.dropWhile p := by
  rcases e : l.dropWhile p with _ | ⟨c, cs⟩
  · rfl
  · have hc : p c = false := by
      have := List.head?_dropWhile_not p l
      rw [e] at this
      simpa using this
    simp [List.dropWhile_cons, hc]

theorem mem_dropWhile_of_not {p : Char → Bool} {l : List Char} {c : Char}
    (hc : c ∈ l) (hpc : p c = false) : c ∈ l.dropWhile p := by
  have hsplit := List.takeWhile_append_dropWhile (p := p) (l := l)
  rw [← hsplit] at hc
  rcases List.mem_append.mp hc with h | h
  · have := List.mem_takeWhile_imp h
    rw [this] at hpc
    exact absurd hpc (by simp)
  · exact h

/-- A non-whitespace character of `s` survives stripping. -/
theorem mem_strip_of_not_ws {s : List Char} {c : Char}
    (hc : c ∈ s) (hw : c.isWhitespace = false) : c ∈ strip s := by
  unfold strip
  rw [List.mem_reverse]
  exact mem_dropWhile_of_not (List.mem_reverse.mpr (mem_dropWhile_of_not hc hw)) hw

/-- A list whose `strip` is empty is all-whitespace. -/
theorem strip_eq_nil_imp {s : List Char} (h : strip s = []) :
    ∀ c ∈ s, c.isWhitespace = true := by
  intro c hc
  by_cases hw : c.isWhitespace
  · exact hw
  · have := mem_strip_of_not_ws hc (by simpa using hw)
    rw [h] at this
    simp at this

/-- A list containing a non-whitespace character has non-empty `strip`. -/
theorem strip_ne_nil_of_mem {s : List Char} {c : Char}
    (hc : c ∈ s) (hw : c.isWhitespace = false) : strip s ≠ [] := by
  intro h
  have := strip_eq_nil_imp h c hc
  rw [this] at hw
  exact Bool.noConfusion hw

/-- An all-whitespace list strips to the empty list. -/
theorem strip_eq_nil_of_all_ws {s : List Char}
    (h : ∀ c ∈ s, c.isWhitespace = true) : strip s = [] := by
  have h1 : s.dropWhile Char.isWhitespace = [] :=
    List.dropWhile_eq_nil_iff.mpr h
  unfold strip
  rw [h1]
  rfl

/-- The head of a non-empty `strip` is not whitespace. -/
theorem strip_head_ws_false {s : List Char} {c : Char} {cs : List Char}
    (h : strip s = c :: cs) : c.isWhitespace = false := by
  unfold strip at h
  set D1 := s.dropWhile Char.isWhitespace with hD1
  set D2 := D1.reverse.dropWhile Char.isWhitespace with hD2
  have hhead : D2.reverse.head? = some c := by rw [h]; rfl
  have hlast : D2.getLast? = some c := by
    rw [← List.head?_reverse]; exact hhead
  -- D2 is the dropWhile-suffix of D1.reverse, so its last element is the
  -- last element of D1.reverse, i.e. the head of D1.
  have hsplit : D1.reverse.takeWhile Char.isWhitespace ++ D2 = D1.reverse :=
    List.takeWhile_append_dropWhile Char.isWhitespace D1.reverse
  have hlast2 : D1.reverse.getLast? = some c := by
    rw [← hsplit, List.getLast?_append, hlast]
    rfl
  have hheadD1 : D1.head? = some c := by
    rw [← List.getLast?_reverse]; exact hlast2
  have := List.head?_dropWhile_not Char.isWhitespace s
  rw [← hD1, hheadD1] at this
  simpa using this

/-- A non-empty `strip` contains a non-whitespace character. -/
theorem exists_not_ws_of_strip_ne_nil {s : List Char} (h : strip s ≠ []) :
    ∃ c ∈ strip s, c.isWhitespace = false := by
  rcases e : strip s with _ | ⟨c, cs⟩
  · exact absurd e h
  · exact ⟨c, by simp [e], strip_head_ws_false e⟩

/-- Stripping is idempotent. -/
theorem strip_idem (s : List Char) : strip (strip s) = strip s := by
  rcases e : strip s with _ | ⟨c, cs⟩
  · simp [strip]
  · rw [← e]
    have hc : c.isWhitespace = false := strip_head_ws_false e
    have h1 : (strip s).dropWhile Char.isWhitespace = strip s := by
      rw [e, List.dropWhile_cons, hc]
      simp
    have h2 : (strip s).reverse.dropWhile Char.isWhitespace = (strip s).reverse := by
      unfold strip
      rw [List.reverse_reverse]
      exact dropWhile_idem _ _
    calc strip (strip s)
        = (((strip s).dropWhile Char.isWhitespace).reverse.dropWhile
            Char.isWhitespace).reverse := rfl
      _ = ((strip s).reverse.dropWhile Char.isWhitespace).reverse := by rw [h1]
      _ = (strip s).reverse.reverse := by rw [h2]
      _ = strip s := List.reverse_reverse _

/-! ### Unfolding equations and structural lemmas for the chunk loop -/

theorem chunkLoop_nil (cs ov : Nat) (cur : List Char) :
    chunkLoop cs ov [] cur = if cur ≠ [] then [strip cur] else [] := rfl

theorem chunkLoop_cons (cs ov : Nat) (s : List Char) (rest : List (List Char))
    (cur : List Char) :
    chunkLoop cs ov (s :: rest) cur =
      if strip s = [] then chunkLoop cs ov rest cur
      else if cur.length + (strip s).length + 1 ≤ cs then
        chunkLoop cs ov rest (if cur ≠ [] then cur ++ ' ' :: strip s else strip s)
      else
        (if cur ≠ [] then [strip cur] else []) ++
          chunkLoop cs ov rest
            (if ov < cur.length then pySliceLast cur ov ++ ' ' :: strip s
             else strip s) := rfl

/-- The loop is insensitive to pre-stripping the sentences and discarding
the empty ones: only the stripped, non-empty sentences matter. -/
theorem chunkLoop_filter (cs ov : Nat) (sents : List (List Char)) :
    ∀ cur, chunkLoop cs ov sents cur =
      chunkLoop cs ov ((sents.map strip).filter (fun x => x ≠ [])) cur := by
  induction sents with
  | nil => intro cur; rfl
  | cons s rest ih =>
    intro cur
    by_cases hs : strip s = []
    · have hfilter : (((s :: rest).map strip).filter (fun x => x ≠ [])) =
          ((rest.map strip).filter (fun x => x ≠ [])) := by
        simp [hs]
      rw [hfilter, chunkLoop_cons, if_pos hs]
      exact ih cur
    · have hfilter : (((s :: rest).map strip).filter (fun x => x ≠ [])) =
          strip s :: ((rest.map strip).filter (fun x => x ≠ [])) := by
        simp [hs]
      rw [hfilter, chunkLoop_cons, chunkLoop_cons, strip_idem,
        if_neg hs, if_neg hs]
      split_ifs <;> simp only [ih]

/-- Every chunk the loop emits is non-empty after stripping, as long as the
running chunk is empty or strips to something non-empty. -/
theorem chunkLoop_mem_strip_ne_nil (cs ov : Nat) (sents : List (List Char)) :
    ∀ cur, (cur = [] ∨ strip cur ≠ []) →
      ∀ c ∈ chunkLoop cs ov sents cur, strip c ≠ [] := by
  induction sents with
  | nil =>
    intro cur hcur c hc
    rw [chunkLoop_nil] at hc
    by_cases h : cur = []
    · rw [if_neg (not_not_intro h)] at hc
      simp at hc
    · rw [if_pos h] at hc
      rcases hcur with hcur | hcur
      · exact absurd hcur h
      · have : c = strip cur := by simpa using hc
        rw [this, strip_idem]
        exact hcur
  | cons s rest ih =>
    intro cur hcur c hc
    rw [chunkLoop_cons] at hc
    by_cases hs : strip s = []
    · rw [if_pos hs] at hc
      exact ih cur hcur c hc
    · rw [if_neg hs] at hc
      obtain ⟨d, hd, hdw⟩ := exists_not_ws_of_strip_ne_nil hs
      by_cases hfit : cur.length + (strip s).length + 1 ≤ cs
      · -- the sentence fits: grow the running chunk
        rw [if_pos hfit] at hc
        refine ih _ (Or.inr ?_) c hc
        by_cases h : cur = []
        · rw [if_neg (not_not_intro h)]
          rw [strip_idem]
          exact hs
        · rw [if_pos h]
          exact strip_ne_nil_of_mem
            (List.mem_append.mpr (Or.inr (List.mem_cons.mpr (Or.inr hd)))) hdw
      · -- overflow: a chunk is closed and the loop continues
        rw [if_neg hfit] at hc
        rcases List.mem_append.mp hc with hc | hc
        · by_cases h : cur = []
          · rw [if_neg (not_not_intro h)] at hc
            simp at hc
          · rw [if_pos h] at hc
            rcases hcur with hcur | hcur
            · exact absurd hcur h
            · have : c = strip cur := by simpa using hc
              rw [this, strip_idem]
              exact hcur
        · refine ih _ (Or.inr ?_) c hc
          by_cases h : ov < cur.length
          · rw [if_pos h]
            exact strip_ne_nil_of_mem
              (List.mem_append.mpr (Or.inr (List.mem_cons.mpr (Or.inr hd)))) hdw
          · rw [if_neg h]
            rw [strip_idem]
            exact hs

/-- Sentence delimiters are never whitespace. -/
theorem ws_not_delim {c : Char} (h : c.isWhitespace = true) :
    isSentenceDelim c = false := by
  cases hd : isSentenceDelim c with
  | false => rfl
  | true =>
    exfalso
    unfold isSentenceDelim at hd
    simp only [Bool.or_eq_true, decide_eq_true_eq] at hd
    rcases hd with (h1 | h1) | h1 <;> (subst h1; exact absurd h (by decide))

/-- On a delimiter-free text, `re.split` produces a single field. -/
theorem splitSentencesAux_no_delim :
    ∀ (t acc : List Char), (∀ c ∈ t, isSentenceDelim c = false) →
      splitSentencesAux t acc false = [acc.reverse ++ t] := by
  intro t
  induction t with
  | nil => intro acc _; simp [splitSentencesAux]
  | cons c rest ih =>
    intro acc h
    have hc : isSentenceDelim c = false := h c (List.mem_cons_self c rest)
    rw [splitSentencesAux, if_neg (by simp [hc])]
    rw [ih (c :: acc) (fun d hd => h d (List.mem_cons.mpr (Or.inr hd)))]
    simp

theorem splitSentences_no_delim {t : List Char}
    (h : ∀ c ∈ t, isSentenceDelim c = false) : splitSentences t = [t] := by
  have := splitSentencesAux_no_delim t [] h
  simpa [splitSentences] using this

/-- Every member of `sentencesOf` is a non-empty stripped sentence. -/
theorem sentencesOf_mem {t x : List Char} (hx : x ∈ sentencesOf t) :
    strip x = x ∧ x ≠ [] := by
  unfold sentencesOf at hx
  have hx' := List.mem_filter.mp hx
  obtain ⟨y, _, hy⟩ := List.mem_map.mp hx'.1
  constructor
  · rw [← hy, strip_idem]
  · simpa using hx'.2

/-! ### Facts about the batch loop -/

/-- First indices of an enumeration are bounded by start plus length. -/
theorem enumFrom_fst_lt :
    ∀ (qs : List String) (i : Nat) (p : Nat × String),
      p ∈ qs.enumFrom i → p.1 < i + qs.length := by
  intro qs
  induction qs with
  | nil => intro i p hp; simp at hp
  | cons q rest ih =>
    intro i p hp
    rw [List.enumFrom_cons] at hp
    rcases List.mem_cons.mp hp with hp | hp
    · subst hp; simp
    · have := ih (i + 1) p hp
      simp only [List.length_cons]
      omega

/-- If the batch loop returns without error, its update trace is exactly
one per-item progress update per question. -/
theorem batchLoop_ok_char (qf : String → Except String TaskQueryResult)
    (total : Nat) :
    ∀ (qs : List String) (i : Nat) (acc : List BatchItem)
      (us : List TaskUpdate) (items : List BatchItem),
      batchLoop qf total i qs acc = (us, Except.ok items) →
      us = (qs.enumFrom i).map (fun p => batchProgressUpdate p.1 total p.2) := by
  intro qs
  induction qs with
  | nil =>
    intro i acc us items h
    have h1 : ([] : List TaskUpdate) = us := congrArg Prod.fst h
    rw [← h1]
    simp
  | cons q rest ih =>
    intro i acc us items h
    rcases hq : qf q with e | r
    · simp only [batchLoop, hq] at h
      exact absurd (congrArg Prod.snd h) (by simp)
    · simp only [batchLoop, hq] at h
      rcases hstep : batchLoop qf total (i + 1) rest
          (acc ++ [{ question := q, answer := r.answer, source := r.source,
                     retrieved_chunks := r.retrieved_chunks }]) with ⟨us2, res2⟩
      rw [hstep] at h
      have hus : batchProgressUpdate i total q :: us2 = us := congrArg Prod.fst h
      have hres : res2 = Except.ok items := congrArg Prod.snd h
      rw [← hus, List.enumFrom_cons, List.map_cons]
      rw [ih (i + 1) _ us2 items (by rw [hstep, hres])]

/-- When every per-item query succeeds, the batch loop returns without
error and emits one per-item progress update per question. -/
theorem batchLoop_all_ok (qf : String → Except String TaskQueryResult)
    (total : Nat) :
    ∀ (qs : List String) (i : Nat) (acc : List BatchItem),
      (∀ q ∈ qs, ∃ r, qf q = Except.ok r) →
      ∃ items, batchLoop qf total i qs acc =
        ((qs.enumFrom i).map (fun p => batchProgressUpdate p.1 total p.2),
         Except.ok items) := by
  intro qs
  induction qs with
  | nil => intro i acc _; exact ⟨acc, by simp [batchLoop]⟩
  | cons q rest ih =>
    intro i acc h
    obtain ⟨r, hr⟩ := h q (List.mem_cons_self q rest)
    obtain ⟨items, hIH⟩ := ih (i + 1)
      (acc ++ [{ question := q, answer := r.answer, source := r.source,
                 retrieved_chunks := r.retrieved_chunks }])
      (fun x hx => h x (List.mem_cons.mpr (Or.inr hx)))
    refine ⟨items, ?_⟩
    simp only [batchLoop, hr, hIH, List.enumFrom_cons, List.map_cons]

/-! ### Facts about binary64 rounding

The properties of `roundDouble` the batch-progress claims rest on:
it is monotone, never rounds a value in `[0, 1]` above `1` or a value in
`[0, 90]` above `90` (both endpoints being exactly representable), and is
nonnegative on nonnegative input. -/

theorem rhe_ge_floor (s : ℚ) : ⌊s⌋ ≤ roundHalfEvenInt s := by
  unfold roundHalfEvenInt
  split_ifs <;> omega

theorem rhe_le_floor_succ (s : ℚ) : roundHalfEvenInt s ≤ ⌊s⌋ + 1 := by
  unfold roundHalfEvenInt
  split_ifs <;> omega

theorem rhe_le_of_le {s : ℚ} {k : ℤ} (h : s ≤ (k : ℚ)) :
    roundHalfEvenInt s ≤ k := by
  have hf : ⌊s⌋ ≤ k := by
    have := Int.floor_mono h
    simpa using this
  rcases eq_or_lt_of_le hf with he | hl
  · have hks : s ≤ ((⌊s⌋ : ℤ) : ℚ) := by rw [he]; exact h
    have hfr : Int.fract s < 1 / 2 := by
      have h0 : Int.fract s ≤ 0 := by
        unfold Int.fract
        linarith
      linarith
    unfold roundHalfEvenInt
    rw [if_pos hfr]
    omega
  · calc roundHalfEvenInt s ≤ ⌊s⌋ + 1 := rhe_le_floor_succ s
      _ ≤ k := by omega

theorem le_rhe_of_le {s : ℚ} {k : ℤ} (h : (k : ℚ) ≤ s) :
    k ≤ roundHalfEvenInt s :=
  le_trans (Int.le_floor.mpr h) (rhe_ge_floor s)

/-- Round-half-to-even to an integer is monotone. -/
theorem rhe_mono {s t : ℚ} (h : s ≤ t) :
    roundHalfEvenInt s ≤ roundHalfEvenInt t := by
  have hf : ⌊s⌋ ≤ ⌊t⌋ := Int.floor_mono h
  rcases eq_or_lt_of_le hf with he | hl
  · have hcast : ((⌊s⌋ : ℤ) : ℚ) = ((⌊t⌋ : ℤ) : ℚ) := by exact_mod_cast he
    have hfr : Int.fract s ≤ Int.fract t := by
      unfold Int.fract
      linarith
    unfold roundHalfEvenInt
    rw [← he]
    split_ifs <;> first | omega | linarith
  · calc roundHalfEvenInt s ≤ ⌊s⌋ + 1 := rhe_le_floor_succ s
      _ ≤ ⌊t⌋ := by omega
      _ ≤ roundHalfEvenInt t := rhe_ge_floor t

theorem roundDouble_le_mul {q : ℚ} {k : ℤ}
    (h : q ≤ (k : ℚ) * 2 ^ ulpExp q) :
    roundDouble q ≤ (k : ℚ) * 2 ^ ulpExp q := by
  have hpw : (0 : ℚ) < 2 ^ ulpExp q := zpow_pos (by norm_num) _
  have hs : q / 2 ^ ulpExp q ≤ (k : ℚ) := by
    rw [div_le_iff₀ hpw]
    exact h
  unfold roundDouble
  exact mul_le_mul_of_nonneg_right (by exact_mod_cast rhe_le_of_le hs)
    (le_of_lt hpw)

theorem le_roundDouble_mul {q : ℚ} {k : ℤ}
    (h : (k : ℚ) * 2 ^ ulpExp q ≤ q) :
    (k : ℚ) * 2 ^ ulpExp q ≤ roundDouble q := by
  have hpw : (0 : ℚ) < 2 ^ ulpExp q := zpow_pos (by norm_num) _
  have hs : (k : ℚ) ≤ q / 2 ^ ulpExp q := by
    rw [le_div_iff₀ hpw]
    exact h
  unfold roundDouble
  exact mul_le_mul_of_nonneg_right (by exact_mod_cast le_rhe_of_le hs)
    (le_of_lt hpw)

theorem roundDouble_nonneg {q : ℚ} (h : 0 ≤ q) : 0 ≤ roundDouble q := by
  have := le_roundDouble_mul (q := q) (k := 0) (by simpa using h)
  simpa using this

/-- A power of two that is a multiple of the ulp, written in the
`(k : ℚ) * 2 ^ ulpExp q` shape of the rounding bounds. -/
theorem zpow_as_mul_ulp (q : ℚ) {m : ℤ} (hm : ulpExp q ≤ m) :
    (((2 : ℤ) ^ (m - ulpExp q).toNat : ℤ) : ℚ) * 2 ^ ulpExp q = 2 ^ m := by
  push_cast
  rw [← zpow_natCast (2 : ℚ) (m - ulpExp q).toNat,
    Int.toNat_of_nonneg (by omega), ← zpow_add₀ (by norm_num : (2 : ℚ) ≠ 0)]
  congr 1
  omega

theorem ulpExp_le_of_log_le {q : ℚ} {m : ℤ} (h : Int.log 2 q ≤ m)
    (hm : -1074 ≤ m - 52) : ulpExp q ≤ m - 52 := by
  unfold ulpExp
  omega

/-- Binary64 rounding is monotone on nonnegative inputs. -/
theorem roundDouble_mono {x y : ℚ} (hx : 0 ≤ x) (h : x ≤ y) :
    roundDouble x ≤ roundDouble y := by
  rcases eq_or_lt_of_le hx with hx0 | hxpos
  · have h0 : roundDouble x = 0 := by
      rw [← hx0]
      unfold roundDouble roundHalfEvenInt
      rw [zero_div]
      norm_num [Int.fract]
    rw [h0]
    exact roundDouble_nonneg (le_trans hx h)
  · have hmono : ulpExp x ≤ ulpExp y := by
      unfold ulpExp
      have := Int.log_mono_right (b := 2) hxpos h
      omega
    rcases eq_or_lt_of_le hmono with ht | ht
    · have hpw : (0 : ℚ) < 2 ^ ulpExp x := zpow_pos (by norm_num) _
      have hs : x / 2 ^ ulpExp x ≤ y / 2 ^ ulpExp x :=
        (div_le_div_iff_of_pos_right hpw).mpr h
      unfold roundDouble
      rw [← ht]
      exact mul_le_mul_of_nonneg_right (by exact_mod_cast rhe_mono hs)
        (le_of_lt hpw)
    · -- different binades: x rounds to at most 2 ^ (Int.log 2 y), which
      -- bounds y's rounding from below
      have hty : ulpExp y = Int.log 2 y - 52 := by
        unfold ulpExp at ht ⊢
        omega
      have hex_lt : Int.log 2 x < Int.log 2 y := by
        have h1 : Int.log 2 x - 52 ≤ ulpExp x := le_max_right _ _
        omega
      have hy_pos : 0 < y := lt_of_lt_of_le hxpos h
      have hyl : (2 : ℚ) ^ Int.log 2 y ≤ y :=
        Int.zpow_log_le_self (by norm_num) hy_pos
      have hxu : x < (2 : ℚ) ^ (Int.log 2 x + 1) :=
        Int.lt_zpow_succ_log_self (by norm_num) x
      have hxlt : x ≤ (2 : ℚ) ^ Int.log 2 y :=
        le_of_lt (lt_of_lt_of_le hxu
          (zpow_le_zpow_right₀ (by norm_num) (by omega)))
      have htx_le : ulpExp x ≤ Int.log 2 y := by
        unfold ulpExp at hty ⊢
        omega
      have hty_le : ulpExp y ≤ Int.log 2 y := by omega
      have hkx := zpow_as_mul_ulp x htx_le
      have hky := zpow_as_mul_ulp y hty_le
      have h1 : roundDouble x ≤ (2 : ℚ) ^ Int.log 2 y := by
        have := roundDouble_le_mul (q := x)
          (k := (2 : ℤ) ^ (Int.log 2 y - ulpExp x).toNat)
          (by rw [hkx]; exact hxlt)
        rw [hkx] at this
        exact this
      have h2 : (2 : ℚ) ^ Int.log 2 y ≤ roundDouble y := by
        have := le_roundDouble_mul (q := y)
          (k := (2 : ℤ) ^ (Int.log 2 y - ulpExp y).toNat)
          (by rw [hky]; exact hyl)
        rw [hky] at this
        exact this
      exact le_trans h1 h2

/-- Rounding never takes a value of `[0, 1]` above the representable `1`. -/
theorem roundDouble_le_one {q : ℚ} (h0 : 0 ≤ q) (h1 : q ≤ 1) :
    roundDouble q ≤ 1 := by
  have hlog : Int.log 2 q ≤ 0 := by
    rcases eq_or_lt_of_le h0 with h | h
    · rw [← h, Int.log_zero_right]
    · calc Int.log 2 q ≤ Int.log 2 (1 : ℚ) := Int.log_mono_right (b := 2) h h1
        _ = 0 := Int.log_one_right 2
  have ht : ulpExp q ≤ (0 : ℤ) := by
    unfold ulpExp
    omega
  have hk := zpow_as_mul_ulp q ht
  have h2 := roundDouble_le_mul (q := q)
    (k := (2 : ℤ) ^ ((0 : ℤ) - ulpExp q).toNat)
    (by rw [hk, zpow_zero]; exact h1)
  rw [hk, zpow_zero] at h2
  exact h2

/-- Rounding never takes a value of `[0, 90]` above the representable `90`. -/
theorem roundDouble_le_90 {q : ℚ} (h0 : 0 ≤ q) (h1 : q ≤ 90) :
    roundDouble q ≤ 90 := by
  have hlog : Int.log 2 q ≤ 6 := by
    rcases eq_or_lt_of_le h0 with h | h
    · rw [← h, Int.log_zero_right]
      omega
    · by_contra hcon
      push_neg at hcon
      have h7 : (2 : ℚ) ^ (7 : ℤ) ≤ (2 : ℚ) ^ Int.log 2 q :=
        zpow_le_zpow_right₀ (by norm_num) (by omega)
      have hle := Int.zpow_log_le_self (b := 2) (by norm_num) h
      have h128 : (128 : ℚ) ≤ q := by
        have he : ((128 : ℚ)) = (2 : ℚ) ^ (7 : ℤ) := by norm_num
        rw [he]
        exact le_trans h7 hle
      linarith
  have ht : ulpExp q ≤ 1 := by
    unfold ulpExp
    omega
  have hk : ((45 * (2 : ℤ) ^ ((1 : ℤ) - ulpExp q).toNat : ℤ) : ℚ) *
      2 ^ ulpExp q = 90 := by
    push_cast
    rw [mul_assoc, ← zpow_natCast (2 : ℚ) ((1 : ℤ) - ulpExp q).toNat,
      Int.toNat_of_nonneg (by omega), ← zpow_add₀ (by norm_num : (2 : ℚ) ≠ 0)]
    have he : (1 : ℤ) - ulpExp q + ulpExp q = 1 := by omega
    rw [he]
    norm_num
  have h2 := roundDouble_le_mul (q := q)
    (k := 45 * (2 : ℤ) ^ ((1 : ℤ) - ulpExp q).toNat)
    (by rw [hk]; exact h1)
  rw [hk] at h2
  exact h2

/-- The per-item percentage stays within the reserved 0-90 band. -/
theorem pyBatchProgress_le_90 {i n : Nat} (h : i ≤ n) :
    pyBatchProgress i n ≤ 90 := by
  unfold pyBatchProgress
  have hq0 : (0 : ℚ) ≤ (i : ℚ) / (n : ℚ) := by positivity
  have hq1 : (i : ℚ) / (n : ℚ) ≤ 1 := by
    rcases Nat.eq_zero_or_pos n with hn | hn
    · subst hn
      simp
    · rw [div_le_one (by exact_mod_cast hn)]
      exact_mod_cast h
  have h1 := roundDouble_le_one hq0 hq1
  have h1' := roundDouble_nonneg hq0
  have h90 : roundDouble ((i : ℚ) / (n : ℚ)) * 90 ≤ 90 := by nlinarith
  have h90' : 0 ≤ roundDouble ((i : ℚ) / (n : ℚ)) * 90 := by positivity
  have h2 := roundDouble_le_90 h90' h90
  have h3 : ⌊roundDouble (roundDouble ((i : ℚ) / (n : ℚ)) * 90)⌋ ≤ 90 := by
    have := Int.floor_mono h2
    simpa using this
  omega

/-- The per-item percentage is monotone in the item index. -/
theorem pyBatchProgress_mono {i j n : Nat} (h : i ≤ j) :
    pyBatchProgress i n ≤ pyBatchProgress j n := by
  unfold pyBatchProgress
  have hd : (i : ℚ) / (n : ℚ) ≤ (j : ℚ) / (n : ℚ) := by
    rcases Nat.eq_zero_or_pos n with hn | hn
    · subst hn
      simp
    · have hc : (0 : ℚ) < (n : ℚ) := by exact_mod_cast hn
      exact (div_le_div_iff_of_pos_right hc).mpr (by exact_mod_cast h)
  have h0 : (0 : ℚ) ≤ (i : ℚ) / (n : ℚ) := by positivity
  have h1 := roundDouble_mono h0 hd
  have h1' := roundDouble_nonneg h0
  have h2 : roundDouble ((i : ℚ) / (n : ℚ)) * 90 ≤
      roundDouble ((j : ℚ) / (n : ℚ)) * 90 :=
    mul_le_mul_of_nonneg_right h1 (by norm_num)
  have h2' : 0 ≤ roundDouble ((i : ℚ) / (n : ℚ)) * 90 := by positivity
  have h3 := roundDouble_mono h2' h2
  have h4 := Int.floor_mono h3
  omega

/-- The per-item progress values are non-decreasing along the enumeration. -/
theorem chain'_enum_progress (total : Nat) :
    ∀ (qs : List String) (i : Nat),
      List.Chain' (fun a b => a ≤ b)
        ((qs.enumFrom i).map (fun p => pyBatchProgress p.1 total)) := by
  intro qs
  induction qs with
  | nil => intro i; simp
  | cons q rest ih =>
    intro i
    rw [List.enumFrom_cons, List.map_cons]
    rw [List.chain'_cons']
    refine ⟨?_, ih (i + 1)⟩
    intro b hb
    cases rest with
    | nil => simp at hb
    | cons r rs =>
      rw [List.enumFrom_cons, List.map_cons] at hb
      simp only [List.head?_cons, Option.mem_def, Option.some.injEq] at hb
      rw [← hb]
      exact pyBatchProgress_mono (Nat.le_succ i)

/-! ### Facts about cache eviction -/

/-- When the incoming entry fits the budget at all, eviction frees enough
room for it. -/
theorem evictToFit_fits :
    ∀ (l : List CacheEntry) (need budget : Nat), need ≤ budget →
      ((evictToFit l need budget).map (fun x => x.size)).sum + need ≤ budget := by
  intro l
  induction l with
  | nil =>
    intro need budget h
    simpa [evictToFit] using h
  | cons e rest ih =>
    intro need budget h
    by_cases hb : budget < ((e :: rest).map (fun x => x.size)).sum + need
    · rw [evictToFit, if_pos hb]
      exact ih need budget h
    · rw [evictToFit, if_neg hb]
      omega

/-- Eviction drops an oldest-first prefix: the retained entries are a
suffix of the original list. -/
theorem evictToFit_suffix :
    ∀ (l : List CacheEntry) (need budget : Nat),
      ∃ k, evictToFit l need budget = l.drop k := by
  intro l
  induction l with
  | nil => intro need budget; exact ⟨0, rfl⟩
  | cons e rest ih =>
    intro need budget
    by_cases hb : budget < ((e :: rest).map (fun x => x.size)).sum + need
    · obtain ⟨k, hk⟩ := ih need budget
      exact ⟨k + 1, by rw [evictToFit, if_pos hb, hk]; rfl⟩
    · exact ⟨0, by rw [evictToFit, if_neg hb, List.drop_zero]⟩

/-! ## Claim theorems -/

/-- **C1**: the query pipeline checks the result cache first.  A (truthy)
cache hit is returned verbatim with source `cache`, with no cache store,
and without invoking retrieval or the generation function (the output is
independent of both collaborators); on a miss the pipeline retrieves,
generates from the context-plus-question prompt, and stores that answer in
the cache before returning it with source `generated`. -/
theorem C1_query_pipeline_cache_first (e : RAGEngineState) (q : String) :
    (∀ a, e.cacheGet q = some a → a ≠ "" →
      e.query q = { answer := a, source := "cache", retrieved_chunks := 0,
                    context_used := none, cacheStores := [] } ∧
      (∀ s g, (RAGEngineState.mk e.cacheGet s g).query q = e.query q)) ∧
    (cacheHit (e.cacheGet q) = false →
      (e.query q).source = "generated" ∧
      (e.query q).answer =
        e.generate (prompt (String.intercalate "\n" (e.searchContents q)) q) ∧
      (e.query q).retrieved_chunks = (e.searchContents q).length ∧
      (e.query q).cacheStores = [(q, (e.query q).answer)]) := by
  constructor
  · intro a ha hne
    have hhit : cacheHit (e.cacheGet q) = true := by
      rw [ha]
      simpa [cacheHit] using hne
    constructor
    · unfold RAGEngineState.query
      rw [if_pos hhit, ha]
      rfl
    · intro s g
      show (RAGEngineState.mk e.cacheGet s g).query q = e.query q
      unfold RAGEngineState.query
      rw [if_pos hhit, if_pos hhit]
  · intro hmiss
    have hq : e.query q = e.queryMiss q := by
      unfold RAGEngineState.query
      rw [if_neg (by simp [hmiss])]
    rw [hq]
    exact ⟨rfl, rfl, rfl, rfl⟩

/-- Witness for C1 at a concrete engine: a cached question comes back from
the cache; an uncached one is generated. -/
theorem C1_witness :
    (RAGEngineState.mk (fun q => if q = "q1" then some "ans" else none)
        (fun _ => ["ctx"]) (fun p => String.append "gen:" p)).query "q1" =
      { answer := "ans", source := "cache", retrieved_chunks := 0,
        context_used := none, cacheStores := [] } ∧
    ((RAGEngineState.mk (fun q => if q = "q1" then some "ans" else none)
        (fun _ => ["ctx"]) (fun p => String.append "gen:" p)).query "q2").source =
      "generated" :=
  ⟨((C1_query_pipeline_cache_first _ "q1").1 "ans" (by simp) (by decide)).1,
   ((C1_query_pipeline_cache_first _ "q2").2 (by simp [cacheHit])).1⟩

/-- **C3** counterexample: with `chunk_size = 4` and `overlap = 10`, the
text `"ab. cdef."` closes the chunk `"ab"` (whose length 2 is no longer
than the overlap 10) when `"cdef"` overflows, and the next chunk is `"cdef"`
alone — not the trailing-overlap seed `"ab cdef"` the claim requires. -/
theorem C3_counterexample :
    chunk_text ("ab. cdef.".data) 4 10 = [['a', 'b'], ['c', 'd', 'e', 'f']] ∧
    (pySliceLast ['a', 'b'] 10 ++ ' ' :: ['c', 'd', 'e', 'f']) ∉
      chunk_text ("ab. cdef.".data) 4 10 := by
  decide

/-- **C3** (amended): when adding a sentence would overflow the current
chunk, the chunk is closed; the next chunk is seeded with the trailing
`overlap` characters of the closed chunk concatenated with the overflowing
sentence only when the closed chunk is strictly longer than `overlap`
characters — when it is no longer than `overlap`, the next chunk starts
with the sentence alone, with no overlap seed. -/
theorem C3_overflow_seed_policy (cs ov : Nat) (cur s : List Char)
    (rest : List (List Char)) (hs : strip s ≠ [])
    (hover : ¬(cur.length + (strip s).length + 1 ≤ cs)) (hcur : cur ≠ []) :
    (ov < cur.length →
      chunkLoop cs ov (s :: rest) cur =
        strip cur :: chunkLoop cs ov rest (pySliceLast cur ov ++ ' ' :: strip s)) ∧
    (cur.length ≤ ov →
      chunkLoop cs ov (s :: rest) cur =
        strip cur :: chunkLoop cs ov rest (strip s)) := by
  rw [chunkLoop_cons, if_neg hs, if_neg hover, if_pos hcur]
  constructor
  · intro h
    rw [if_pos h]
    rfl
  · intro h
    rw [if_neg (by omega : ¬ ov < cur.length)]
    rfl

/-- Witness for the amended C3 at a concrete overflow whose closed chunk is
shorter than the overlap. -/
theorem C3_overflow_seed_policy_witness :
    chunkLoop 4 10 [[' ', 'c', 'd', 'e', 'f']] ['a', 'b'] =
      strip ['a', 'b'] :: chunkLoop 4 10 [] (strip [' ', 'c', 'd', 'e', 'f']) :=
  (C3_overflow_seed_policy 4 10 ['a', 'b'] [' ', 'c', 'd', 'e', 'f'] []
    (by decide) (by decide) (by decide)).2 (by decide)

/-- **C4**: a text whose sentence split yields a single (stripped,
non-empty) sentence longer than `chunk_size` chunks to exactly that
sentence, whole and unsplit, for any overlap. -/
theorem C4_oversized_sentence_whole (text : List Char) (cs ov : Nat)
    (s : List Char) (hone : sentencesOf text = [s]) (hlong : cs < s.length) :
    chunk_text text cs ov = [s] := by
  have hmem : s ∈ sentencesOf text := by
    rw [hone]; exact List.mem_cons_self s []
  obtain ⟨hstrip, hne⟩ := sentencesOf_mem hmem
  unfold chunk_text
  rw [chunkLoop_filter]
  have hfil : ((splitSentences text).map strip).filter (fun x => x ≠ []) = [s] := hone
  rw [hfil, chunkLoop_cons, hstrip, if_neg hne]
  have hnofit : ¬(([] : List Char).length + s.length + 1 ≤ cs) := by
    simp only [List.length_nil]
    omega
  rw [if_neg hnofit]
  have h1 : (if ([] : List Char) ≠ [] then [strip ([] : List Char)] else []) =
      ([] : List (List Char)) := by simp
  have h2 : (if ov < ([] : List Char).length then pySliceLast [] ov ++ ' ' :: s
      else s) = s := by simp
  rw [h1, h2, chunkLoop_nil, if_pos hne, hstrip]
  simp

/-- Witness for C4: an 8-character single-sentence text with chunk size 5 is
returned whole. -/
theorem C4_witness :
    5 < ("abcdefgh".data).length ∧
    chunk_text ("abcdefgh".data) 5 2 = ["abcdefgh".data] :=
  ⟨by decide, C4_oversized_sentence_whole _ 5 2 _ (by decide) (by decide)⟩

/-- **C5**: chunking is deterministic (a pure function of its arguments),
every returned chunk is non-empty after trimming, and whitespace-only input
produces zero chunks. -/
theorem C5_chunk_deterministic_nonempty (text : List Char) (cs ov : Nat) :
    chunk_text text cs ov = chunk_text text cs ov ∧
    (∀ c ∈ chunk_text text cs ov, strip c ≠ []) ∧
    ((∀ ch ∈ text, ch.isWhitespace = true) → chunk_text text cs ov = []) := by
  refine ⟨rfl, ?_, ?_⟩
  · exact chunkLoop_mem_strip_ne_nil cs ov (splitSentences text) [] (Or.inl rfl)
  · intro hws
    have hnodelim : ∀ c ∈ text, isSentenceDelim c = false :=
      fun c hc => ws_not_delim (hws c hc)
    unfold chunk_text
    rw [splitSentences_no_delim hnodelim, chunkLoop_cons,
      if_pos (strip_eq_nil_of_all_ws hws), chunkLoop_nil]
    simp

/-- Witness for C5 on a whitespace-only input. -/
theorem C5_witness : chunk_text (" ".data) 10 2 = [] :=
  (C5_chunk_deterministic_nonempty (" ".data) 10 2).2.2 (by decide)


/-- **C2** counterexample: a query task whose engine call raises after the
60%-progress update emits a FAILURE update carrying the error text but with
progress 0 — not the last reached value 60.  The second-to-last update
(the last PROGRESS one) carries 60, the FAILURE update carries 0. -/
theorem C2_counterexample :
    (processQueryAsync (Except.ok ()) (fun _ => Except.error "boom") "q").2 =
      Except.error "boom" ∧
    ((processQueryAsync (Except.ok ())
        (fun _ => Except.error "boom") "q").1.getLast?.map
      (fun u => (u.state, u.meta.progress, u.meta.error))) =
      some ("FAILURE", 0, some "boom") ∧
    (((processQueryAsync (Except.ok ())
        (fun _ => Except.error "boom") "q").1.dropLast.getLast?.map
      (fun u => u.meta.progress)) = some 60) ∧
    ¬ (0 : Nat) = 60 :=
  ⟨rfl, rfl, rfl, by decide⟩

/-- **C2** (amended): any uncaught error in a task body transitions the
task to FAILURE carrying the error text, but the progress in the FAILURE
payload is reset to 0 rather than held at the last progress value reached —
for the single-query, batch-query and index-build tasks alike. -/
theorem C2_failure_error_text_progress_zero
    (init : Except String Unit) (qf : String → Except String TaskQueryResult)
    (question : String) (questions : List String)
    (pd : Except String ProcessDocsResult) (e : String) :
    ((processQueryAsync init qf question).2 = Except.error e →
      ∃ u, (processQueryAsync init qf question).1.getLast? = some u ∧
        u.state = "FAILURE" ∧ u.meta.error = some e ∧ u.meta.progress = 0) ∧
    ((batchQueryAsync init qf questions).2 = Except.error e →
      ∃ u, (batchQueryAsync init qf questions).1.getLast? = some u ∧
        u.state = "FAILURE" ∧ u.meta.error = some e ∧ u.meta.progress = 0) ∧
    ((processDocumentsAsync init pd).2 = Except.error e →
      ∃ u, (processDocumentsAsync init pd).1.getLast? = some u ∧
        u.state = "FAILURE" ∧ u.meta.error = some e ∧ u.meta.progress = 0) := by
  refine ⟨?_, ?_, ?_⟩
  · intro h
    rcases init with e0 | u0
    · simp only [processQueryAsync] at h ⊢
      rw [Except.error.injEq] at h
      exact ⟨queryFailureUpdate e0 question, rfl, rfl, by subst h; rfl, rfl⟩
    · rcases hq : qf question with e0 | r
      · simp only [processQueryAsync, hq] at h ⊢
        rw [Except.error.injEq] at h
        exact ⟨queryFailureUpdate e0 question, rfl, rfl, by subst h; rfl, rfl⟩
      · simp only [processQueryAsync, hq] at h
        exact Except.noConfusion h
  · intro h
    rcases init with e0 | u0
    · simp only [batchQueryAsync] at h ⊢
      rw [Except.error.injEq] at h
      exact ⟨batchFailureUpdate e0, rfl, rfl, by subst h; rfl, rfl⟩
    · simp only [batchQueryAsync] at h ⊢
      rcases hbl : batchLoop qf questions.length 0 questions [] with ⟨us, res⟩
      rw [hbl] at h
      rcases res with e0 | items
      · dsimp only at h
        rw [Except.error.injEq] at h
        exact ⟨batchFailureUpdate e0, List.getLast?_concat us, rfl,
          by subst h; rfl, rfl⟩
      · dsimp only at h
        exact Except.noConfusion h
  · intro h
    rcases init with e0 | u0
    · simp only [processDocumentsAsync] at h ⊢
      rw [Except.error.injEq] at h
      exact ⟨docsFailureUpdate e0, rfl, rfl, by subst h; rfl, rfl⟩
    · rcases hp : pd with e0 | r
      · simp only [processDocumentsAsync, hp] at h ⊢
        rw [Except.error.injEq] at h
        exact ⟨docsFailureUpdate e0, rfl, rfl, by subst h; rfl, rfl⟩
      · simp only [processDocumentsAsync, hp] at h
        exact Except.noConfusion h

/-- Witness for the amended C2: a concrete failing engine call. -/
theorem C2_amended_witness :
    ∃ u, (processQueryAsync (Except.ok ())
        (fun _ => Except.error "err") "q").1.getLast? = some u ∧
      u.state = "FAILURE" ∧ u.meta.error = some "err" ∧ u.meta.progress = 0 :=
  (C2_failure_error_text_progress_zero (Except.ok ())
    (fun _ => Except.error "err") "q" []
    (Except.ok { status := "", documents_processed := 0, message := "" })
    "err").1 rfl

/-- **C6**: for a non-empty question list whose per-item queries all
succeed, the batch task's per-item updates carry progress
`int((completed_items / total_items) * 90)` computed in binary64
arithmetic (`pyBatchProgress`) — the `completed_items / total_items`
fraction scaled into the 0-90 band, reserving the trailing band for
finalization (the finalization update carries 95) — every emitted update
stays below 100, and 100 appears only in the final payload, after all
per-item work and the finalization update. -/
theorem C6_batch_progress (qf : String → Except String TaskQueryResult)
    (qs : List String) (hne : qs ≠ [])
    (hok : ∀ q ∈ qs, ∃ r, qf q = Except.ok r) :
    ∃ payload,
      batchQueryAsync (Except.ok ()) qf qs =
        ((qs.enumFrom 0).map (fun p => batchProgressUpdate p.1 qs.length p.2) ++
          [⟨"PROGRESS", { status := "Finalizing batch results...", progress := 95 }⟩],
         Except.ok payload) ∧
      payload.progress = 100 ∧
      ∀ u ∈ (batchQueryAsync (Except.ok ()) qf qs).1, u.meta.progress < 100 := by
  obtain ⟨items, hbl⟩ := batchLoop_all_ok qf qs.length qs 0 [] hok
  refine ⟨{ status := "completed", total_questions := qs.length, results := items,
            progress := 100,
            message := "Successfully processed " ++ toString qs.length ++
              " questions" }, ?_, rfl, ?_⟩
  · simp only [batchQueryAsync, hbl]
  · intro u hu
    simp only [batchQueryAsync, hbl] at hu
    rcases List.mem_append.mp hu with hu | hu
    · obtain ⟨p, hp, hpu⟩ := List.mem_map.mp hu
      rw [← hpu]
      have hlt : p.1 < qs.length := by
        have := enumFrom_fst_lt qs 0 p hp
        omega
      have hle : pyBatchProgress p.1 qs.length ≤ 90 :=
        pyBatchProgress_le_90 (Nat.le_of_lt hlt)
      show pyBatchProgress p.1 qs.length < 100
      omega
    · have : u = ⟨"PROGRESS",
          { status := "Finalizing batch results...", progress := 95 }⟩ := by
        simpa using hu
      rw [this]
      show 95 < 100
      omega

/-- Witness for C6 on a two-question batch. -/
theorem C6_batch_progress_witness :
    ∃ payload,
      batchQueryAsync (Except.ok ())
          (fun _ => Except.ok { answer := "a", source := "generated",
                                retrieved_chunks := 0, context_used := false })
          ["q1", "q2"] =
        (((["q1", "q2"] : List String).enumFrom 0).map
            (fun p => batchProgressUpdate p.1 2 p.2) ++
          [⟨"PROGRESS", { status := "Finalizing batch results...", progress := 95 }⟩],
         Except.ok payload) ∧
      payload.progress = 100 ∧
      ∀ u ∈ (batchQueryAsync (Except.ok ())
          (fun _ => Except.ok { answer := "a", source := "generated",
                                retrieved_chunks := 0, context_used := false })
          ["q1", "q2"]).1, u.meta.progress < 100 :=
  C6_batch_progress _ ["q1", "q2"] (by simp) (fun q _ => ⟨_, rfl⟩)

/-- **C7**: for each task kind (single query, batch query, index build),
when the task runs to completion without error, the progress percentages of
its successive PROGRESS updates followed by the final payload's progress
form a non-decreasing sequence. -/
theorem C7_progress_monotone :
    (∀ (init : Except String Unit)
       (qf : String → Except String TaskQueryResult) (q : String)
       (p : QueryTaskPayload),
      (processQueryAsync init qf q).2 = Except.ok p →
      List.Chain' (fun a b => a ≤ b)
        (((processQueryAsync init qf q).1.map (fun u => u.meta.progress)) ++
          [p.progress])) ∧
    (∀ (init : Except String Unit)
       (qf : String → Except String TaskQueryResult) (qs : List String)
       (p : BatchPayload),
      (batchQueryAsync init qf qs).2 = Except.ok p →
      List.Chain' (fun a b => a ≤ b)
        (((batchQueryAsync init qf qs).1.map (fun u => u.meta.progress)) ++
          [p.progress])) ∧
    (∀ (init : Except String Unit) (pd : Except String ProcessDocsResult)
       (p : DocTaskPayload),
      (processDocumentsAsync init pd).2 = Except.ok p →
      List.Chain' (fun a b => a ≤ b)
        (((processDocumentsAsync init pd).1.map (fun u => u.meta.progress)) ++
          [p.progress])) := by
  refine ⟨?_, ?_, ?_⟩
  · intro init qf q p h
    rcases init with e0 | u0
    · simp only [processQueryAsync] at h
      exact Except.noConfusion h
    · rcases hq : qf q with e0 | r
      · simp only [processQueryAsync, hq] at h
        exact Except.noConfusion h
      · simp only [processQueryAsync, hq] at h ⊢
        rw [Except.ok.injEq] at h
        rw [← h]
        show List.Chain' (fun a b => a ≤ b) ([10, 30, 60, 90] ++ [100])
        simp
  · intro init qf qs p h
    rcases init with e0 | u0
    · simp only [batchQueryAsync] at h
      exact Except.noConfusion h
    · simp only [batchQueryAsync] at h ⊢
      rcases hbl : batchLoop qf qs.length 0 qs [] with ⟨us, res⟩
      rw [hbl] at h
      rcases res with e0 | items
      · dsimp only at h
        exact Except.noConfusion h
      · dsimp only at h
        rw [Except.ok.injEq] at h
        rw [← h]
        have hus := batchLoop_ok_char qf qs.length qs 0 [] us items hbl
        rw [hus]
        have hmap : (List.map (fun u => u.meta.progress)
            (((qs.enumFrom 0).map
                (fun p => batchProgressUpdate p.1 qs.length p.2)) ++
              [⟨"PROGRESS",
                { status := "Finalizing batch results...", progress := 95 }⟩]))
            = ((qs.enumFrom 0).map (fun p => pyBatchProgress p.1 qs.length)) ++
              [95] := by
          rw [List.map_append, List.map_map]
          rfl
        rw [hmap, List.append_assoc]
        show List.Chain' (fun a b => a ≤ b)
          (((qs.enumFrom 0).map (fun p => pyBatchProgress p.1 qs.length)) ++
            [95, 100])
        rw [List.chain'_append]
        refine ⟨chain'_enum_progress qs.length qs 0, by simp, ?_⟩
        intro x hx y hy
        have hx2 : x ∈ (qs.enumFrom 0).map
            (fun p => pyBatchProgress p.1 qs.length) :=
          List.mem_of_mem_getLast? hx
        obtain ⟨pr, hpr, hprx⟩ := List.mem_map.mp hx2
        have hlt : pr.1 < qs.length := by
          have := enumFrom_fst_lt qs 0 pr hpr
          omega
        have hle : pyBatchProgress pr.1 qs.length ≤ 90 :=
          pyBatchProgress_le_90 (Nat.le_of_lt hlt)
        have hyv : y = 95 := by
          have h95 : 95 = y := by simpa using hy
          omega
        rw [← hprx, hyv]
        omega
  · intro init pd p h
    rcases init with e0 | u0
    · simp only [processDocumentsAsync] at h
      exact Except.noConfusion h
    · rcases hp : pd with e0 | r
      · simp only [processDocumentsAsync, hp] at h
        exact Except.noConfusion h
      · simp only [processDocumentsAsync, hp] at h ⊢
        rw [Except.ok.injEq] at h
        rw [← h]
        show List.Chain' (fun a b => a ≤ b) ([10, 30, 80] ++ [100])
        simp

/-- Witness for C7 on a concrete successful single-query task. -/
theorem C7_witness :
    List.Chain' (fun a b => a ≤ b)
      (((processQueryAsync (Except.ok ())
          (fun _ => Except.ok { answer := "a", source := "generated",
                                retrieved_chunks := 0, context_used := false })
          "q").1.map (fun u => u.meta.progress)) ++ [100]) :=
  C7_progress_monotone.1 (Except.ok ())
    (fun _ => Except.ok { answer := "a", source := "generated",
                          retrieved_chunks := 0, context_used := false })
    "q"
    { status := "completed", question := "q", answer := "a",
      source := "generated", retrieved_chunks := 0, context_used := false,
      progress := 100, message := "Query processed successfully" }
    rfl

/-- **C8**: looking up a task id that was never submitted reports PENDING,
indistinguishable from an id that is queued but not yet started, with no
distinct not-found error. -/
theorem C8_unknown_id_pending (store1 store2 : String → Option CeleryTaskState)
    (id : String) (h1 : store1 id = none)
    (h2 : store2 id = some CeleryTaskState.pending) :
    get_task_status store1 id = get_task_status store2 id ∧
    (get_task_status store1 id).status = "PENDING" ∧
    (get_task_status store1 id).error = none ∧
    (get_task_status store1 id).message = some "Task is waiting to be processed" := by
  have e1 : celeryStateOf store1 id = CeleryTaskState.pending := by
    rw [celeryStateOf, h1]
    rfl
  have e2 : celeryStateOf store2 id = CeleryTaskState.pending := by
    rw [celeryStateOf, h2]
    rfl
  unfold get_task_status
  rw [e1, e2]
  exact ⟨rfl, rfl, rfl, rfl⟩

/-- Witness for C8: a backend that never saw "t1" versus one where "t1" is
queued but unstarted produce identical responses. -/
theorem C8_witness :
    get_task_status (fun _ => none) "t1" =
      get_task_status
        (fun s => if s = "t1" then some CeleryTaskState.pending else none)
        "t1" :=
  (C8_unknown_id_pending _ _ "t1" rfl (by simp)).1

/-- **C9** counterexample: storing a single entry of serialized size 10
into an empty cache with `max_size_bytes = 5` leaves the total at 10,
above the byte budget — the spec's own oversized-entry rule makes such an
entry "the sole retained item", violating the unconditional invariant. -/
theorem C9_counterexample :
    totalSizeBytes (cachePut ⟨[]⟩ "q" "a" 0 10 5) = 10 ∧ ¬ (10 : Nat) ≤ 5 := by
  decide

/-- **C9** (amended): after any `put` whose entry is itself no larger than
`max_size_bytes`, the total cached size is within the byte budget, and the
eviction removed an oldest-first prefix of the previous entries (the
retained old entries are a suffix) before appending the new entry.  An
entry larger than the budget becomes the sole retained item and the total
then exceeds the budget. -/
theorem C9_put_within_budget (c : ResultCache) (key answer : String)
    (now size maxSize : Nat) (h : size ≤ maxSize) :
    totalSizeBytes (cachePut c key answer now size maxSize) ≤ maxSize ∧
    ∃ k, (cachePut c key answer now size maxSize).entries =
      c.entries.drop k ++
        [{ key := key, answer := answer, created_at := now, size := size }] := by
  constructor
  · have hfit := evictToFit_fits c.entries size maxSize h
    unfold totalSizeBytes cachePut
    simp only [List.map_append, List.sum_append, List.map_cons, List.map_nil,
      List.sum_cons, List.sum_nil]
    omega
  · obtain ⟨k, hk⟩ := evictToFit_suffix c.entries size maxSize
    exact ⟨k, by unfold cachePut; rw [hk]⟩

/-- Witness for the amended C9: inserting a 3-byte entry into a cache
holding a 4-byte entry under a 5-byte budget evicts the old entry and ends
within budget. -/
theorem C9_put_within_budget_witness :
    totalSizeBytes (cachePut
      ⟨[{ key := "k0", answer := "a0", created_at := 0, size := 4 }]⟩
      "k1" "a1" 1 3 5) ≤ 5 :=
  (C9_put_within_budget _ "k1" "a1" 1 3 5 (by decide)).1

/-- **C10**: with zero loaded documents `process_documents` reports a
completed result with `documents_processed = 0` and leaves the index
entirely unchanged; with at least one document it clears the index before
adding, so every successful run is a full rebuild whose index holds exactly
the entries of the newly loaded documents, independent of the prior index. -/
theorem C10_process_documents_rebuild (cs ov : Nat) (docs : List Document)
    (index : List IndexEntry) :
    (docs = [] →
      process_documents cs ov docs index =
        ({ status := "completed", documents_processed := 0,
           message := "No documents found in data/documents/ directory" },
         index)) ∧
    (docs ≠ [] →
      (process_documents cs ov docs index).2 =
        add_documents clear_index cs ov docs ∧
      (process_documents cs ov docs index).1.documents_processed =
        docs.length ∧
      (process_documents cs ov docs index).1.status = "completed" ∧
      ∀ index2, process_documents cs ov docs index2 =
        process_documents cs ov docs index) := by
  constructor
  · intro h
    subst h
    rfl
  · intro h
    have hne : docs.isEmpty = false := by
      cases docs with
      | nil => exact absurd rfl h
      | cons d ds => rfl
    unfold process_documents
    rw [hne]
    exact ⟨rfl, rfl, rfl, fun index2 => rfl⟩

/-- Witness for C10: an empty load leaves a one-entry index untouched; a
one-document load rebuilds from scratch. -/
theorem C10_witness :
    process_documents 10 2 [] [{ content := ['x'], filename := "f" }] =
      ({ status := "completed", documents_processed := 0,
         message := "No documents found in data/documents/ directory" },
       [{ content := ['x'], filename := "f" }]) ∧
    (process_documents 10 2 [{ content := ['a'], filename := "d" }]
        [{ content := ['x'], filename := "f" }]).2 =
      add_documents clear_index 10 2 [{ content := ['a'], filename := "d" }] :=
  ⟨(C10_process_documents_rebuild 10 2 [] _).1 rfl,
   ((C10_process_documents_rebuild 10 2 _ _).2 (by simp)).1⟩

end RagCeleryFastapi
